import Mathlib

/-!
Verification of the seat allocation and transactional booking engine.

The ledger is a list of seats (the `seats` table), kept in ascending
`(row, pos)` order, which is how the table is provisioned.  The SQL
queries of the booking route, the cancellation route and the admin reset
route are translated into executable Lean functions:

* `tier1` embeds `consecutiveSeatsQuery` (gaps-and-islands grouping of
  unoccupied seats into maximal runs of consecutive seat numbers within
  a row, ordered by row number, limit 1);
* `pickBest`/`rowGroups` embed `rowsWithMaxSeatsQuery` (`GROUP BY
  row_number`, `ORDER BY available_seats DESC, row_number`, `LIMIT 1`);
* `tier2` embeds the best-row slice plus the `nearbySeatsQuery`
  spillover (`ORDER BY ABS(row_number - anchor), row_number,
  seat_number`, `LIMIT remaining`);
* `anyAvail` embeds `anyAvailableSeatsQuery`;
* `bookSeatsCore` embeds the transaction of `POST /api/book-seats`:
  selection on the snapshot `s1`, then the `FOR UPDATE` re-check and the
  `UPDATE` against the commit-time state `s2` (the two coincide for a
  solo call, `bookSeats`);
* `cancelSeat` embeds `POST /api/seats/:seatId/cancel` and `resetAll`
  embeds `POST /api/admin/reset-all`.
-/

namespace SeatBooking

structure Seat where
  id : Nat
  row : Nat
  pos : Nat
  booked : Bool
  bookedBy : Option Nat
  bookedAt : Option Nat
deriving DecidableEq

/-- Unoccupied seats, in ledger order (`WHERE is_booked = FALSE`). -/
def free (s : List Seat) : List Seat := s.filter (fun x => !x.booked)

/-- Seat identifiers of a seat list. -/
def seatIds (l : List Seat) : List Nat := l.map (fun x => x.id)

/-- Adjacency within a run: same row and the next consecutive seat
number.  This is the boundary condition of the gaps-and-islands
grouping `seat_number - ROW_NUMBER() OVER (PARTITION BY row_number
ORDER BY seat_number)` used by `consecutiveSeatsQuery`. -/
def adjB (x y : Seat) : Bool := x.row == y.row && y.pos == x.pos + 1

/-- Split a list into maximal chunks of elements successively related
by `r`. -/
def chunksBy (r : Seat → Seat → Bool) : List Seat → List (List Seat)
  | [] => []
  | [x] => [[x]]
  | x :: y :: xs =>
    match chunksBy r (y :: xs) with
    | [] => [[x]]
    | c :: cs => if r x y then (x :: c) :: cs else [x] :: c :: cs

/-- Maximal runs of consecutive unoccupied seats, grouped per row, in
ascending `(row, pos)` order. -/
def runs (l : List Seat) : List (List Seat) := chunksBy adjB l

/-- `consecutiveSeatsQuery` followed by the `slice(0, numSeats)`: the
first run of length at least `n` (groups ordered by row number),
truncated to its first `n` seats. -/
def tier1 (n : Nat) (l : List Seat) : Option (List Seat) :=
  (((runs l).filter (fun c => decide (n ≤ c.length))).head?).map (fun c => c.take n)

/-- The distinct row numbers having at least one unoccupied seat
(`GROUP BY row_number` over the unoccupied seats). -/
def rowVals (l : List Seat) : List Nat := (l.map (fun x => x.row)).dedup

/-- One group per row value: all unoccupied seats of that row, in seat
number order (`array_agg(id ORDER BY seat_number)`). -/
def rowGroups (l : List Seat) : List (List Seat) :=
  (rowVals l).map (fun v => l.filter (fun x => x.row == v))

/-- `ORDER BY available_seats DESC, row_number LIMIT 1`: the first
group of maximal length, the input being listed in ascending row
order. -/
def pickBest : List (List Seat) → Option (List Seat)
  | [] => none
  | g :: gs =>
    match pickBest gs with
    | none => some g
    | some b => if g.length < b.length then some b else some g

/-- Row number of a group (the groups produced here are nonempty). -/
def rowOf : List Seat → Nat
  | [] => 0
  | x :: _ => x.row

/-- `ABS(row_number - anchor)` over natural numbers. -/
def distN (a b : Nat) : Nat := max a b - min a b

/-- The sort key of `nearbySeatsQuery`: absolute row distance from the
anchor row, then row number, then seat number. -/
def nearLE (anchor : Nat) (x y : Seat) : Prop :=
  distN x.row anchor < distN y.row anchor ∨
    (distN x.row anchor = distN y.row anchor ∧
      (x.row < y.row ∨ (x.row = y.row ∧ x.pos ≤ y.pos)))

instance (anchor : Nat) : DecidableRel (nearLE anchor) := fun x y => by
  unfold nearLE; exact inferInstance

instance (anchor : Nat) : IsTotal Seat (nearLE anchor) :=
  ⟨fun x y => by unfold nearLE; omega⟩

instance (anchor : Nat) : IsTrans Seat (nearLE anchor) :=
  ⟨fun x y z hxy hyz => by unfold nearLE at hxy hyz ⊢; omega⟩

/-- The `ORDER BY` of `nearbySeatsQuery`. -/
def nearSort (anchor : Nat) (l : List Seat) : List Seat :=
  List.insertionSort (nearLE anchor) l

/-- `anyAvailableSeatsQuery` plus the length check of the route: the
first `n` unoccupied seats in `(row, pos)` order, failing when fewer
than `n` exist. -/
def anyAvail (n : Nat) (l : List Seat) : Option (List Seat) :=
  if (l.take n).length < n then none else some (l.take n)

/-- The unoccupied seats not already selected: `WHERE is_booked = FALSE
AND id != ALL($1)`. -/
def spillPool (l sel : List Seat) : List Seat :=
  l.filter (fun x => !decide (x.id ∈ seatIds sel))

/-- Second tier: `Math.min(available_seats, numSeats)` seats from the
best row, then, if short, the nearby-row spillover, which must supply
exactly the remainder. -/
def tier2 (n : Nat) (l g : List Seat) : Option (List Seat) :=
  if min g.length n < n then
    if ((nearSort (rowOf g) (spillPool l (g.take (min g.length n)))).take
          (n - min g.length n)).length = n - min g.length n then
      some (g.take (min g.length n) ++
        (nearSort (rowOf g) (spillPool l (g.take (min g.length n)))).take
          (n - min g.length n))
    else none
  else some (g.take (min g.length n))

/-- The `else` branches of the route: best-row-plus-nearby when the
best-row query returned a row with a positive seat count, scattered
fallback otherwise. -/
def tier23 (n : Nat) (l : List Seat) : Option (List Seat) :=
  match pickBest (rowGroups l) with
  | some g => if 0 < g.length then tier2 n l g else anyAvail n l
  | none => anyAvail n l

/-- The full selection policy of `POST /api/book-seats`: consecutive
run first, otherwise best row plus nearby, otherwise any seats. -/
def selectSeats (n : Nat) (s : List Seat) : Option (List Seat) :=
  match tier1 n (free s) with
  | some r => some r
  | none => tier23 n (free s)

inductive BookResult where
  | booked (seats : List (Nat × Nat × Nat))
  | insufficientCapacity
  | concurrentConflict
deriving DecidableEq

/-- The `UPDATE seats SET is_booked = TRUE, booked_by = $1,
booked_at = NOW() WHERE id = ANY($2)`. -/
def mark (s : List Seat) (ids : List Nat) (uid t : Nat) : List Seat :=
  s.map (fun x =>
    if x.id ∈ ids then
      { x with booked := true, bookedBy := some uid, bookedAt := some t }
    else x)

/-- The booking transaction: selection against the snapshot `s1`, then
the post-lock availability re-check and the update against the
commit-time ledger `s2`. -/
def bookSeatsCore (n uid t : Nat) (s1 s2 : List Seat) : BookResult × List Seat :=
  match selectSeats n s1 with
  | none => (.insufficientCapacity, s2)
  | some sel =>
    if s2.any (fun x => x.booked && decide (x.id ∈ seatIds sel)) then
      (.concurrentConflict, s2)
    else
      (.booked (sel.map (fun x => (x.id, x.row, x.pos))), mark s2 (seatIds sel) uid t)

/-- A booking call with no interleaved concurrent commit: the re-check
runs against the same ledger the selection saw. -/
def bookSeats (n uid t : Nat) (s : List Seat) : BookResult × List Seat :=
  bookSeatsCore n uid t s s

inductive CancelResult where
  | released
  | notFound
  | forbidden
deriving DecidableEq

/-- Clearing the three occupancy fields of one seat. -/
def clearSeat (x : Seat) : Seat :=
  { x with booked := false, bookedBy := none, bookedAt := none }

/-- `POST /api/seats/:seatId/cancel`: find the seat by id among booked
seats (404 otherwise), require the caller to be the booker (403
otherwise), then clear its occupancy fields. -/
def cancelSeat (sid uid : Nat) (s : List Seat) : CancelResult × List Seat :=
  match s.find? (fun x => x.id == sid && x.booked) with
  | none => (.notFound, s)
  | some seat =>
    if seat.bookedBy = some uid then
      (.released, s.map (fun x => if x.id = sid then clearSeat x else x))
    else (.forbidden, s)

/-- `POST /api/admin/reset-all`: clear every seat's occupancy. -/
def resetAll (s : List Seat) : List Seat := s.map clearSeat

/-- Strict `(row, pos)` lexicographic order on seats. -/
def lexLT (x y : Seat) : Prop :=
  x.row < y.row ∨ (x.row = y.row ∧ x.pos < y.pos)

instance : DecidableRel lexLT := fun x y => by
  unfold lexLT; exact inferInstance

/-- Well-formed ledger: listed in strictly ascending `(row, pos)` order
(so `(row, pos)` pairs are unique) and seat ids are unique. -/
def Wf (s : List Seat) : Prop :=
  s.Pairwise lexLT ∧ (s.map (fun x => x.id)).Nodup

instance (s : List Seat) : Decidable (Wf s) := by
  unfold Wf; exact inferInstance

/-- Per-seat occupancy invariant: `bookedBy`/`bookedAt` are both set
when the seat is occupied, both null when it is not. -/
def SeatInv (x : Seat) : Prop :=
  (x.booked = true → x.bookedBy.isSome = true ∧ x.bookedAt.isSome = true) ∧
    (x.booked = false → x.bookedBy = none ∧ x.bookedAt = none)

instance (x : Seat) : Decidable (SeatInv x) := by
  unfold SeatInv; exact inferInstance

def LedgerInv (s : List Seat) : Prop := ∀ x ∈ s, SeatInv x

instance (s : List Seat) : Decidable (LedgerInv s) := by
  unfold LedgerInv; exact inferInstance

/-- The 2 rows × 3 seats layout of the spec's concrete scenario, all
seats unoccupied. -/
def demoLedger : List Seat :=
  [⟨1, 1, 1, false, none, none⟩, ⟨2, 1, 2, false, none, none⟩,
   ⟨3, 1, 3, false, none, none⟩, ⟨4, 2, 1, false, none, none⟩,
   ⟨5, 2, 2, false, none, none⟩, ⟨6, 2, 3, false, none, none⟩]

def demoBook1 : BookResult × List Seat := bookSeats 3 101 11 demoLedger

def demoBook2 : BookResult × List Seat := bookSeats 2 102 12 demoBook1.2

def demoBook3 : BookResult × List Seat := bookSeats 2 103 13 demoBook2.2

/-- A 3 rows × 2 seats layout where row 1 has one free seat, row 2 is
fully free and row 3 is fully booked: requesting three seats exercises
the best-row-plus-nearby spillover. -/
def spillLedger : List Seat :=
  [⟨1, 1, 1, false, none, none⟩, ⟨2, 1, 2, true, some 7, some 5⟩,
   ⟨3, 2, 1, false, none, none⟩, ⟨4, 2, 2, false, none, none⟩,
   ⟨5, 3, 1, true, some 7, some 5⟩, ⟨6, 3, 2, true, some 7, some 5⟩]

/-- A fully booked one-row layout: exercises the scattered-fallback
branch of the selection policy. -/
def fullLedger : List Seat :=
  [⟨1, 1, 1, true, some 7, some 5⟩, ⟨2, 1, 2, true, some 7, some 5⟩]

/-! ### Chunking lemmas -/

theorem chunksBy_cons_ne_nil (r : Seat → Seat → Bool) (a : Seat) (l : List Seat) :
    chunksBy r (a :: l) ≠ [] := by
  cases l with
  | nil => simp [chunksBy]
  | cons y ys =>
    simp only [chunksBy]
    cases chunksBy r (y :: ys) with
    | nil => simp
    | cons c cs => cases h : r a y <;> simp [h]

theorem flatten_chunksBy (r : Seat → Seat → Bool) :
    ∀ l : List Seat, (chunksBy r l).flatten = l := by
  intro l
  induction l with
  | nil => rfl
  | cons x xs ih =>
    cases xs with
    | nil => rfl
    | cons y ys =>
      simp only [chunksBy]
      cases h : chunksBy r (y :: ys) with
      | nil => exact absurd h (chunksBy_cons_ne_nil r y ys)
      | cons c cs =>
        rw [h] at ih
        simp only [List.flatten_cons] at ih
        cases hr : r x y <;> simp [hr, List.flatten_cons, ih]

theorem mem_chunksBy_ne_nil {r : Seat → Seat → Bool} {l : List Seat} {c : List Seat}
    (h : c ∈ chunksBy r l) : c ≠ [] := by
  induction l with
  | nil => simp [chunksBy] at h
  | cons x xs ih =>
    cases xs with
    | nil =>
      simp [chunksBy] at h
      simp [h]
    | cons y ys =>
      simp only [chunksBy] at h
      cases hc : chunksBy r (y :: ys) with
      | nil => exact absurd hc (chunksBy_cons_ne_nil r y ys)
      | cons c0 cs =>
        rw [hc] at h
        cases hr : r x y <;> rw [hr] at h <;> simp at h
        · rcases h with h | h | h
          · simp [h]
          · exact ih (by rw [hc]; simp [h])
          · exact ih (by rw [hc]; simp [h])
        · rcases h with h | h
          · simp [h]
          · exact ih (by rw [hc]; simp [h])

theorem sublist_of_mem_chunksBy {r : Seat → Seat → Bool} {l : List Seat} {c : List Seat}
    (h : c ∈ chunksBy r l) : c.Sublist l := by
  have := List.sublist_flatten_of_mem h
  rwa [flatten_chunksBy] at this

theorem length_le_of_mem_chunksBy {r : Seat → Seat → Bool} {l : List Seat} {c : List Seat}
    (h : c ∈ chunksBy r l) : c.length ≤ l.length :=
  (sublist_of_mem_chunksBy h).length_le

theorem chain_of_mem_chunksBy {r : Seat → Seat → Bool} {l : List Seat} {c : List Seat}
    (h : c ∈ chunksBy r l) : c.Chain' (fun a b => r a b = true) := by
  induction l generalizing c with
  | nil => simp [chunksBy] at h
  | cons x xs ih =>
    cases xs with
    | nil =>
      simp [chunksBy] at h
      simp [h]
    | cons y ys =>
      simp only [chunksBy] at h
      cases hc : chunksBy r (y :: ys) with
      | nil => exact absurd hc (chunksBy_cons_ne_nil r y ys)
      | cons c0 cs =>
        rw [hc] at h
        have hc0 : c0 ∈ chunksBy r (y :: ys) := by rw [hc]; simp
        have hhead : c0.head? = some y := by
          have hflat := flatten_chunksBy r (y :: ys)
          rw [hc] at hflat
          simp only [List.flatten_cons] at hflat
          cases c0 with
          | nil => exact absurd rfl (mem_chunksBy_ne_nil hc0)
          | cons a as => simp at hflat ⊢; exact hflat.1
        cases hr : r x y <;> rw [hr] at h <;> simp at h
        · rcases h with h | h | h
          · simp [h]
          · exact ih (by rw [hc]; simp [h])
          · exact ih (by rw [hc]; simp [h])
        · rcases h with h | h
          · subst h
            rw [List.chain'_cons']
            refine ⟨?_, ih hc0⟩
            intro b hb
            rw [hhead] at hb
            simp at hb
            subst hb
            exact hr
          · exact ih (by rw [hc]; simp [h])

theorem chain_take {R : Seat → Seat → Prop} :
    ∀ c : List Seat, c.Chain' R → ∀ n : Nat, (c.take n).Chain' R := by
  intro c
  induction c with
  | nil => intro _ n; simp
  | cons a as ih =>
    intro h n
    cases n with
    | zero => simp
    | succ m =>
      rw [List.take_succ_cons]
      rw [List.chain'_cons'] at h
      rw [List.chain'_cons']
      refine ⟨?_, ih h.2 m⟩
      intro y hy
      apply h.1
      cases as with
      | nil => simp at hy
      | cons b bs =>
        cases m with
        | zero => simp at hy
        | succ k => simpa using hy

theorem chunksBy_pairwise_cross {R : Seat → Seat → Prop} {r : Seat → Seat → Bool}
    {l : List Seat} (h : l.Pairwise R) :
    (chunksBy r l).Pairwise (fun c d => ∀ x ∈ c, ∀ y ∈ d, R x y) := by
  have : (chunksBy r l).flatten.Pairwise R := by rwa [flatten_chunksBy]
  exact (List.pairwise_flatten.mp this).2

/-! ### Facts about runs -/

theorem adjB_iff {x y : Seat} : adjB x y = true ↔ x.row = y.row ∧ y.pos = x.pos + 1 := by
  simp [adjB]

theorem row_eq_rowOf_of_chain {c : List Seat}
    (hc : c.Chain' (fun a b => adjB a b = true)) :
    ∀ x ∈ c, x.row = rowOf c := by
  induction c with
  | nil => simp
  | cons a as ih =>
    intro x hx
    rcases List.mem_cons.mp hx with h | h
    · subst h; rfl
    · cases as with
      | nil => simp at h
      | cons b bs =>
        rw [List.chain'_cons] at hc
        have hab : a.row = b.row := (adjB_iff.mp hc.1).1
        have := ih hc.2 x h
        simp only [rowOf] at this ⊢
        omega

/-! ### Facts about the best-row choice -/

theorem pickBest_eq_none {gs : List (List Seat)} : pickBest gs = none ↔ gs = [] := by
  cases gs with
  | nil => simp [pickBest]
  | cons a as =>
    cases ha : pickBest as with
    | none => simp [pickBest, ha]
    | some b =>
      simp only [pickBest, ha]
      by_cases hl : a.length < b.length <;> simp [hl]

theorem pickBest_mem {gs : List (List Seat)} {g : List Seat}
    (h : pickBest gs = some g) : g ∈ gs := by
  induction gs generalizing g with
  | nil => simp [pickBest] at h
  | cons a as ih =>
    cases ha : pickBest as with
    | none => simp only [pickBest, ha] at h; simp at h; simp [h]
    | some b =>
      simp only [pickBest, ha] at h
      by_cases hl : a.length < b.length
      · rw [if_pos hl] at h
        simp at h
        subst h
        exact List.mem_cons_of_mem _ (ih ha)
      · rw [if_neg hl] at h
        simp at h
        simp [h]

theorem pickBest_max {gs : List (List Seat)} {g : List Seat}
    (h : pickBest gs = some g) : ∀ g' ∈ gs, g'.length ≤ g.length := by
  induction gs generalizing g with
  | nil => simp [pickBest] at h
  | cons a as ih =>
    cases ha : pickBest as with
    | none =>
      simp only [pickBest, ha] at h
      simp at h
      subst h
      rw [pickBest_eq_none.mp ha]
      simp
    | some b =>
      simp only [pickBest, ha] at h
      by_cases hl : a.length < b.length
      · rw [if_pos hl] at h
        simp at h
        subst h
        intro g' hg'
        rcases List.mem_cons.mp hg' with h | h
        · subst h; omega
        · exact ih ha g' h
      · rw [if_neg hl] at h
        simp at h
        subst h
        intro g' hg'
        rcases List.mem_cons.mp hg' with h | h
        · subst h; exact le_refl _
        · exact le_trans (ih ha g' h) (by omega)

theorem pickBest_lowest_row {gs : List (List Seat)} {g : List Seat}
    (hrows : gs.Pairwise (fun c d => rowOf c < rowOf d))
    (h : pickBest gs = some g) :
    ∀ g' ∈ gs, g'.length = g.length → rowOf g ≤ rowOf g' := by
  induction gs generalizing g with
  | nil => simp [pickBest] at h
  | cons a as ih =>
    rw [List.pairwise_cons] at hrows
    cases ha : pickBest as with
    | none =>
      simp only [pickBest, ha] at h
      simp at h
      subst h
      rw [pickBest_eq_none.mp ha]
      simp
    | some b =>
      simp only [pickBest, ha] at h
      by_cases hl : a.length < b.length
      · rw [if_pos hl] at h
        simp at h
        subst h
        intro g' hg' hlen
        rcases List.mem_cons.mp hg' with h | h
        · subst h; omega
        · exact ih hrows.2 ha g' h hlen
      · rw [if_neg hl] at h
        simp at h
        subst h
        intro g' hg' _
        rcases List.mem_cons.mp hg' with h | h
        · subst h; exact le_refl _
        · exact le_of_lt (hrows.1 g' h)

/-! ### Facts about the row groups -/

theorem mem_rowVals {l : List Seat} {v : Nat} :
    v ∈ rowVals l ↔ ∃ x ∈ l, x.row = v := by
  simp [rowVals, List.mem_dedup]

theorem mem_rowGroups {l : List Seat} {g : List Seat} :
    g ∈ rowGroups l ↔ ∃ v ∈ rowVals l, g = l.filter (fun x => x.row == v) := by
  simp [rowGroups, eq_comm]

theorem mem_of_mem_rowGroups {l g : List Seat} (hg : g ∈ rowGroups l) :
    ∀ x ∈ g, x ∈ l := by
  rcases mem_rowGroups.mp hg with ⟨v, _, rfl⟩
  intro x hx
  exact (List.mem_filter.mp hx).1

theorem rowGroups_ne_nil {l g : List Seat} (hg : g ∈ rowGroups l) : g ≠ [] := by
  rcases mem_rowGroups.mp hg with ⟨v, hv, rfl⟩
  rcases mem_rowVals.mp hv with ⟨x, hx, hxr⟩
  have : x ∈ l.filter (fun x => x.row == v) := by
    rw [List.mem_filter]
    exact ⟨hx, by simp [hxr]⟩
  exact List.ne_nil_of_mem this

theorem rowOf_filter_row {l : List Seat} {v : Nat} (hv : v ∈ rowVals l) :
    rowOf (l.filter (fun x => x.row == v)) = v := by
  have hne : l.filter (fun x => x.row == v) ≠ [] :=
    rowGroups_ne_nil (mem_rowGroups.mpr ⟨v, hv, rfl⟩)
  cases hc : l.filter (fun x => x.row == v) with
  | nil => exact absurd hc hne
  | cons a as =>
    have ha : a ∈ l.filter (fun x => x.row == v) := by rw [hc]; simp
    have := (List.mem_filter.mp ha).2
    simp at this
    simp [rowOf, this]

theorem row_eq_rowOf_of_mem_rowGroups {l g : List Seat} (hg : g ∈ rowGroups l) :
    ∀ x ∈ g, x.row = rowOf g := by
  rcases mem_rowGroups.mp hg with ⟨v, hv, rfl⟩
  intro x hx
  rw [rowOf_filter_row hv]
  have := (List.mem_filter.mp hx).2
  simpa using this

theorem mem_rowGroups_complete {l g : List Seat} (hg : g ∈ rowGroups l) :
    ∀ x ∈ l, x.row = rowOf g → x ∈ g := by
  rcases mem_rowGroups.mp hg with ⟨v, hv, rfl⟩
  intro x hx hr
  rw [rowOf_filter_row hv] at hr
  rw [List.mem_filter]
  exact ⟨hx, by simp [hr]⟩

theorem length_le_of_mem_rowGroups {l g : List Seat} (hg : g ∈ rowGroups l) :
    g.length ≤ l.length := by
  rcases mem_rowGroups.mp hg with ⟨v, _, rfl⟩
  exact List.length_filter_le _ l

theorem sublist_of_mem_rowGroups {l g : List Seat} (hg : g ∈ rowGroups l) :
    g.Sublist l := by
  rcases mem_rowGroups.mp hg with ⟨v, _, rfl⟩
  exact List.filter_sublist l

theorem rowGroups_rows_lt {l : List Seat} (h : l.Pairwise lexLT) :
    (rowGroups l).Pairwise (fun c d => rowOf c < rowOf d) := by
  have hle : (l.map (fun x => x.row)).Pairwise (· ≤ ·) := by
    rw [List.pairwise_map]
    exact h.imp (fun hxy => by unfold lexLT at hxy; omega)
  have hle2 : (rowVals l).Pairwise (· ≤ ·) :=
    hle.sublist (List.dedup_sublist _)
  have hne : (rowVals l).Pairwise (· ≠ ·) := List.nodup_dedup _
  have hlt : (rowVals l).Pairwise (· < ·) :=
    (hle2.and hne).imp (fun hp => lt_of_le_of_ne hp.1 hp.2)
  unfold rowGroups
  rw [List.pairwise_map]
  refine List.Pairwise.imp_of_mem ?_ hlt
  intro u v hu hv huv
  rwa [rowOf_filter_row hu, rowOf_filter_row hv]

/-! ### Facts about the unoccupied list and the spillover pool -/

theorem free_sublist (s : List Seat) : (free s).Sublist s := List.filter_sublist s

theorem mem_free {s : List Seat} {x : Seat} :
    x ∈ free s ↔ x ∈ s ∧ x.booked = false := by
  simp [free, List.mem_filter]

theorem free_pairwise {s : List Seat} (hwf : Wf s) : (free s).Pairwise lexLT :=
  hwf.1.sublist (free_sublist s)

theorem free_ids_nodup {s : List Seat} (hwf : Wf s) :
    ((free s).map (fun x => x.id)).Nodup :=
  hwf.2.sublist ((free_sublist s).map _)

theorem length_filter_add_not (p : Seat → Bool) (l : List Seat) :
    (l.filter p).length + (l.filter (fun x => !p x)).length = l.length := by
  induction l with
  | nil => rfl
  | cons a as ih => cases h : p a <;> simp [h, List.filter_cons] <;> omega

theorem filter_mem_eq_self {g l : List Seat} (hs : g.Sublist l) (hn : l.Nodup) :
    l.filter (fun x => decide (x ∈ g)) = g := by
  induction hs with
  | slnil => rfl
  | cons a hs ih =>
    rename_i l₁ l₂
    rw [List.nodup_cons] at hn
    have ha : a ∉ l₁ := fun hmem => hn.1 (hs.subset hmem)
    simp only [List.filter_cons, decide_eq_true_eq]
    rw [if_neg ha]
    exact ih hn.2
  | cons₂ a hs ih =>
    rename_i l₁ l₂
    rw [List.nodup_cons] at hn
    simp only [List.filter_cons, decide_eq_true_eq, List.mem_cons, true_or, if_true]
    have : l₂.filter (fun x => decide (x = a ∨ x ∈ l₁)) = l₂.filter (fun x => decide (x ∈ l₁)) := by
      apply List.filter_congr
      intro x hx
      have hxa : x ≠ a := fun h => hn.1 (h ▸ hx)
      simp [hxa]
    rw [this, ih hn.2]

theorem id_mem_iff {g l : List Seat} {x : Seat} (hsub : ∀ y ∈ g, y ∈ l)
    (hn : (l.map (fun x => x.id)).Nodup) (hx : x ∈ l) :
    x.id ∈ seatIds g ↔ x ∈ g := by
  constructor
  · intro h
    rcases List.mem_map.mp h with ⟨y, hy, hid⟩
    have := List.inj_on_of_nodup_map hn (hsub y hy) hx hid
    rwa [← this]
  · intro h
    exact List.mem_map_of_mem _ h

theorem filter_id_mem_eq {g l : List Seat} (hs : g.Sublist l)
    (hn : (l.map (fun x => x.id)).Nodup) :
    l.filter (fun x => decide (x.id ∈ seatIds g)) = g := by
  have h2 : l.filter (fun x => decide (x.id ∈ seatIds g)) =
      l.filter (fun x => decide (x ∈ g)) := by
    apply List.filter_congr
    intro x hx
    rw [decide_eq_decide]
    exact id_mem_iff (fun y hy => hs.subset hy) hn hx
  rw [h2]
  exact filter_mem_eq_self hs (hn.of_map _)

theorem spillPool_length {g l : List Seat} (hs : g.Sublist l)
    (hn : (l.map (fun x => x.id)).Nodup) :
    (spillPool l g).length = l.length - g.length := by
  have h1 := length_filter_add_not (fun x => decide (x.id ∈ seatIds g)) l
  rw [filter_id_mem_eq hs hn] at h1
  unfold spillPool
  omega

theorem mem_spillPool {g l : List Seat} {x : Seat} (hsub : ∀ y ∈ g, y ∈ l)
    (hn : (l.map (fun x => x.id)).Nodup) :
    x ∈ spillPool l g ↔ x ∈ l ∧ x ∉ g := by
  unfold spillPool
  rw [List.mem_filter]
  constructor
  · rintro ⟨hx, hp⟩
    simp only [Bool.not_eq_true', decide_eq_false_iff_not] at hp
    exact ⟨hx, fun hg => hp ((id_mem_iff hsub hn hx).mpr hg)⟩
  · rintro ⟨hx, hg⟩
    refine ⟨hx, ?_⟩
    simp only [Bool.not_eq_true', decide_eq_false_iff_not]
    exact fun hmem => hg ((id_mem_iff hsub hn hx).mp hmem)

/-! ### Structure of the selection tiers -/

theorem selectSeats_of_tier1 {n : Nat} {s : List Seat} {r : List Seat}
    (h : tier1 n (free s) = some r) : selectSeats n s = some r := by
  unfold selectSeats
  rw [h]

theorem selectSeats_of_no_tier1 {n : Nat} {s : List Seat}
    (h : tier1 n (free s) = none) : selectSeats n s = tier23 n (free s) := by
  unfold selectSeats
  rw [h]

theorem tier1_eq_none_iff {n : Nat} {l : List Seat} :
    tier1 n l = none ↔ ∀ c ∈ runs l, c.length < n := by
  unfold tier1
  rw [Option.map_eq_none', List.head?_eq_none_iff, List.filter_eq_nil_iff]
  constructor
  · intro h c hc
    have := h c hc
    simp only [decide_eq_true_eq] at this
    omega
  · intro h c hc
    have := h c hc
    simp only [decide_eq_true_eq]
    omega

theorem tier1_of_filter_cons {n : Nat} {l : List Seat} {c : List Seat}
    {cs : List (List Seat)}
    (h : (runs l).filter (fun c => decide (n ≤ c.length)) = c :: cs) :
    tier1 n l = some (c.take n) ∧ c ∈ runs l ∧ n ≤ c.length := by
  have hc : c ∈ (runs l).filter (fun c => decide (n ≤ c.length)) := by
    rw [h]; exact List.mem_cons_self _ _
  refine ⟨?_, List.mem_of_mem_filter hc, by simpa using List.of_mem_filter hc⟩
  unfold tier1
  rw [h]
  rfl

theorem tier23_of_pickBest_none {n : Nat} {l : List Seat}
    (h : pickBest (rowGroups l) = none) : tier23 n l = anyAvail n l := by
  unfold tier23
  rw [h]

theorem tier23_of_pickBest_some {n : Nat} {l g : List Seat}
    (h : pickBest (rowGroups l) = some g) :
    tier23 n l = if 0 < g.length then tier2 n l g else anyAvail n l := by
  unfold tier23
  rw [h]

theorem anyAvail_eq_none_iff {n : Nat} {l : List Seat} :
    anyAvail n l = none ↔ l.length < n := by
  unfold anyAvail
  rw [List.length_take]
  split <;> rename_i h <;> simp <;> omega

theorem anyAvail_of_le {n : Nat} {l : List Seat} (h : n ≤ l.length) :
    anyAvail n l = some (l.take n) := by
  unfold anyAvail
  rw [List.length_take, if_neg (by omega)]

theorem cross_lex_rowOf_le {c d : List Seat} (hc : c ≠ []) (hd : d ≠ [])
    (h : ∀ x ∈ c, ∀ y ∈ d, lexLT x y) : rowOf c ≤ rowOf d := by
  cases c with
  | nil => exact absurd rfl hc
  | cons a as =>
    cases d with
    | nil => exact absurd rfl hd
    | cons b bs =>
      have := h a (List.mem_cons_self _ _) b (List.mem_cons_self _ _)
      unfold lexLT at this
      simp only [rowOf]
      omega

theorem nodup_ids_of_sublist_free {s c : List Seat} (hwf : Wf s)
    (hc : c.Sublist (free s)) : (c.map (fun x => x.id)).Nodup :=
  (free_ids_nodup hwf).sublist (hc.map _)

/-- Any candidate set produced by the selection policy consists of
exactly `n` seats, with pairwise distinct identifiers, all unoccupied in
the snapshot. -/
theorem selectSeats_some_spec {n : Nat} {s : List Seat} {sel : List Seat}
    (hwf : Wf s) (h : selectSeats n s = some sel) :
    sel.length = n ∧ (sel.map (fun x => x.id)).Nodup ∧ ∀ x ∈ sel, x ∈ free s := by
  unfold selectSeats at h
  cases ht : tier1 n (free s) with
  | some r =>
    rw [ht] at h
    simp at h
    subst h
    cases hf : (runs (free s)).filter (fun c => decide (n ≤ c.length)) with
    | nil => unfold tier1 at ht; rw [hf] at ht; simp at ht
    | cons c cs =>
      obtain ⟨ht1, hcmem, hclen⟩ := tier1_of_filter_cons hf
      rw [ht1] at ht
      simp at ht
      subst ht
      have hcsub : c.Sublist (free s) := sublist_of_mem_chunksBy hcmem
      have htsub : (c.take n).Sublist (free s) := (List.take_sublist n c).trans hcsub
      refine ⟨List.length_take_of_le hclen, nodup_ids_of_sublist_free hwf htsub, ?_⟩
      exact fun x hx => htsub.subset hx
  | none =>
    rw [ht] at h
    cases hb : pickBest (rowGroups (free s)) with
    | none =>
      rw [tier23_of_pickBest_none hb] at h
      simp only [anyAvail] at h
      split at h
      · simp at h
      · rename_i hcond
        simp at h
        subst h
        rw [List.length_take] at hcond ⊢
        have hsub := List.take_sublist n (free s)
        exact ⟨by omega, nodup_ids_of_sublist_free hwf hsub, fun x hx => hsub.subset hx⟩
    | some g =>
      have hgmem := pickBest_mem hb
      have hgne := rowGroups_ne_nil hgmem
      have hgsub : g.Sublist (free s) := sublist_of_mem_rowGroups hgmem
      have hgpos : 0 < g.length := List.length_pos.mpr hgne
      rw [tier23_of_pickBest_some hb, if_pos hgpos] at h
      simp only [tier2] at h
      by_cases hk : min g.length n < n
      · rw [if_pos hk] at h
        have hkg : min g.length n = g.length := by omega
        rw [hkg, List.take_length] at h
        split at h
        · rename_i hlen
          simp at h
          subst h
          have hpoolsub : (spillPool (free s) g).Sublist (free s) :=
            List.filter_sublist _
          have hperm := List.perm_insertionSort (nearLE (rowOf g)) (spillPool (free s) g)
          have hextrasub : ((nearSort (rowOf g) (spillPool (free s) g)).take
              (n - g.length)).Sublist (nearSort (rowOf g) (spillPool (free s) g)) :=
            List.take_sublist _ _
          have hsortnodup : ((nearSort (rowOf g) (spillPool (free s) g)).map
              (fun x => x.id)).Nodup := by
            have : ((nearSort (rowOf g) (spillPool (free s) g)).map (fun x => x.id)).Perm
                ((spillPool (free s) g).map (fun x => x.id)) := hperm.map _
            exact this.nodup_iff.mpr (nodup_ids_of_sublist_free hwf hpoolsub)
          have hextranodup := hsortnodup.sublist (hextrasub.map _)
          have hextramem : ∀ x ∈ (nearSort (rowOf g) (spillPool (free s) g)).take
              (n - g.length), x ∈ spillPool (free s) g := by
            intro x hx
            exact (hperm.mem_iff).mp (hextrasub.subset hx)
          constructor
          · rw [List.length_append, hlen]
            omega
          constructor
          · rw [List.map_append]
            refine List.Nodup.append (nodup_ids_of_sublist_free hwf hgsub) hextranodup ?_
            intro i hig hie
            rcases List.mem_map.mp hie with ⟨y, hy, hyid⟩
            have hyp := List.of_mem_filter (hextramem y hy)
            simp only [Bool.not_eq_true', decide_eq_false_iff_not] at hyp
            exact hyp (hyid ▸ hig)
          · intro x hx
            rcases List.mem_append.mp hx with hx | hx
            · exact hgsub.subset hx
            · exact List.mem_of_mem_filter (hextramem x hx)
        · simp at h
      · rw [if_neg hk] at h
        simp at h
        subst h
        have hng : n ≤ g.length := by omega
        have hmin : min g.length n = n := by omega
        rw [hmin]
        have htsub : (g.take n).Sublist (free s) := (List.take_sublist n g).trans hgsub
        exact ⟨List.length_take_of_le hng, nodup_ids_of_sublist_free hwf htsub,
          fun x hx => htsub.subset hx⟩

/-- The selection policy returns no candidate set exactly when fewer
unoccupied seats exist than requested. -/
theorem select_none_iff {n : Nat} {s : List Seat} (hwf : Wf s) :
    selectSeats n s = none ↔ (free s).length < n := by
  constructor
  · intro hsel
    by_contra hlen
    push_neg at hlen
    cases ht : tier1 n (free s) with
    | some r => rw [selectSeats_of_tier1 ht] at hsel; simp at hsel
    | none =>
      rw [selectSeats_of_no_tier1 ht] at hsel
      cases hb : pickBest (rowGroups (free s)) with
      | none =>
        rw [tier23_of_pickBest_none hb] at hsel
        have := anyAvail_eq_none_iff.mp hsel
        omega
      | some g =>
        have hgmem := pickBest_mem hb
        have hgpos : 0 < g.length := List.length_pos.mpr (rowGroups_ne_nil hgmem)
        have hgsub : g.Sublist (free s) := sublist_of_mem_rowGroups hgmem
        rw [tier23_of_pickBest_some hb, if_pos hgpos] at hsel
        simp only [tier2] at hsel
        by_cases hk : min g.length n < n
        · rw [if_pos hk] at hsel
          have hkg : min g.length n = g.length := by omega
          rw [hkg, List.take_length] at hsel
          have hpl : (spillPool (free s) g).length = (free s).length - g.length :=
            spillPool_length hgsub (free_ids_nodup hwf)
          have hsortlen := (List.perm_insertionSort (nearLE (rowOf g))
            (spillPool (free s) g)).length_eq
          have hgl : g.length ≤ (free s).length := hgsub.length_le
          have hextra : ((nearSort (rowOf g) (spillPool (free s) g)).take
              (n - g.length)).length = n - g.length := by
            unfold nearSort
            rw [List.length_take, hsortlen, hpl]
            omega
          rw [if_pos hextra] at hsel
          simp at hsel
        · rw [if_neg hk] at hsel
          simp at hsel
  · intro hlen
    have ht : tier1 n (free s) = none :=
      tier1_eq_none_iff.mpr (fun c hc =>
        lt_of_le_of_lt (length_le_of_mem_chunksBy hc) hlen)
    rw [selectSeats_of_no_tier1 ht]
    cases hb : pickBest (rowGroups (free s)) with
    | none =>
      rw [tier23_of_pickBest_none hb]
      exact anyAvail_eq_none_iff.mpr hlen
    | some g =>
      have hgmem := pickBest_mem hb
      have hgpos : 0 < g.length := List.length_pos.mpr (rowGroups_ne_nil hgmem)
      have hgsub : g.Sublist (free s) := sublist_of_mem_rowGroups hgmem
      have hgl : g.length ≤ (free s).length := hgsub.length_le
      rw [tier23_of_pickBest_some hb, if_pos hgpos]
      simp only [tier2]
      have hk : min g.length n < n := by omega
      rw [if_pos hk]
      have hkg : min g.length n = g.length := by omega
      rw [hkg, List.take_length]
      have hpl : (spillPool (free s) g).length = (free s).length - g.length :=
        spillPool_length hgsub (free_ids_nodup hwf)
      have hsortlen := (List.perm_insertionSort (nearLE (rowOf g))
        (spillPool (free s) g)).length_eq
      have hextra : ((nearSort (rowOf g) (spillPool (free s) g)).take
          (n - g.length)).length = (free s).length - g.length := by
        unfold nearSort
        rw [List.length_take, hsortlen, hpl]
        omega
      rw [if_neg (by rw [hextra]; omega)]

/-! ### Structure of the booking transaction -/

theorem bookSeatsCore_of_select_none {n uid t : Nat} {s1 s2 : List Seat}
    (h : selectSeats n s1 = none) :
    bookSeatsCore n uid t s1 s2 = (.insufficientCapacity, s2) := by
  unfold bookSeatsCore
  rw [h]

theorem bookSeatsCore_of_select_some {n uid t : Nat} {s1 s2 sel : List Seat}
    (h : selectSeats n s1 = some sel) :
    bookSeatsCore n uid t s1 s2 =
      if s2.any (fun x => x.booked && decide (x.id ∈ seatIds sel)) then
        (.concurrentConflict, s2)
      else
        (.booked (sel.map (fun x => (x.id, x.row, x.pos))), mark s2 (seatIds sel) uid t) := by
  unfold bookSeatsCore
  rw [h]

theorem conflict_check_iff {s2 sel : List Seat} :
    s2.any (fun x => x.booked && decide (x.id ∈ seatIds sel)) = true ↔
      ∃ x ∈ s2, x.booked = true ∧ x.id ∈ seatIds sel := by
  simp [List.any_eq_true]

/-- With no interleaved commit, the post-lock re-check never fires: all
selected seats were unoccupied in the very snapshot being re-read. -/
theorem single_state_no_conflict {n : Nat} {s sel : List Seat}
    (hwf : Wf s) (hsel : selectSeats n s = some sel) :
    s.any (fun x => x.booked && decide (x.id ∈ seatIds sel)) = false := by
  by_contra hc
  rw [Bool.not_eq_false, conflict_check_iff] at hc
  obtain ⟨x, hx, hbk, hid⟩ := hc
  obtain ⟨-, -, hmem⟩ := selectSeats_some_spec hwf hsel
  have hsub : ∀ y ∈ sel, y ∈ s := fun y hy => (free_sublist s).subset (hmem y hy)
  have hxin : x ∈ sel := (id_mem_iff hsub hwf.2 hx).mp hid
  have hfree := (mem_free.mp (hmem x hxin)).2
  rw [hfree] at hbk
  exact absurd hbk (by simp)

theorem bookSeats_of_select_some {n uid t : Nat} {s sel : List Seat}
    (hwf : Wf s) (hsel : selectSeats n s = some sel) :
    bookSeats n uid t s =
      (.booked (sel.map (fun x => (x.id, x.row, x.pos))), mark s (seatIds sel) uid t) := by
  unfold bookSeats
  rw [bookSeatsCore_of_select_some hsel,
    if_neg (by rw [single_state_no_conflict hwf hsel]; simp)]

/-! ### Cancellation machinery -/

theorem cancel_of_find_none {sid uid : Nat} {s : List Seat}
    (h : s.find? (fun x => x.id == sid && x.booked) = none) :
    cancelSeat sid uid s = (.notFound, s) := by
  unfold cancelSeat
  rw [h]

theorem cancel_of_find_some {sid uid : Nat} {s : List Seat} {x : Seat}
    (h : s.find? (fun x => x.id == sid && x.booked) = some x) :
    cancelSeat sid uid s =
      if x.bookedBy = some uid then
        (.released, s.map (fun y => if y.id = sid then clearSeat y else y))
      else (.forbidden, s) := by
  unfold cancelSeat
  rw [h]

theorem find_booked_eq {sid : Nat} {s : List Seat} {x : Seat}
    (hwf : Wf s) (hx : x ∈ s) (hid : x.id = sid) (hbk : x.booked = true) :
    s.find? (fun y => y.id == sid && y.booked) = some x := by
  cases hf : s.find? (fun y => y.id == sid && y.booked) with
  | none =>
    rw [List.find?_eq_none] at hf
    exact absurd (by simp [hid, hbk]) (hf x hx)
  | some y =>
    have hyp := List.find?_some hf
    have hymem := List.mem_of_find?_eq_some hf
    simp only [Bool.and_eq_true, beq_iff_eq] at hyp
    have : y = x := List.inj_on_of_nodup_map hwf.2 hymem hx (by rw [hyp.1, hid])
    rw [this]

/-! ### Invariant machinery -/

theorem seatInv_clear (x : Seat) : SeatInv (clearSeat x) := by
  unfold SeatInv clearSeat
  refine ⟨fun h => ?_, fun _ => ⟨rfl, rfl⟩⟩
  simp at h

theorem seatInv_mark (x : Seat) (uid t : Nat) :
    SeatInv { x with booked := true, bookedBy := some uid, bookedAt := some t } := by
  unfold SeatInv
  refine ⟨fun _ => ⟨rfl, rfl⟩, fun h => ?_⟩
  simp at h

theorem ledgerInv_mark {s : List Seat} {ids : List Nat} {uid t : Nat}
    (hinv : LedgerInv s) : LedgerInv (mark s ids uid t) := by
  intro x hx
  rcases List.mem_map.mp hx with ⟨y, hy, rfl⟩
  by_cases h : y.id ∈ ids
  · rw [if_pos h]
    exact seatInv_mark y uid t
  · rw [if_neg h]
    exact hinv y hy

/-! ### The claims -/

/-- C2: whenever some row of the snapshot holds a maximal run of at
least `n` consecutive unoccupied seats, the selection policy returns
the first `n` seats of one such run: a single-row, position-consecutive
block of unoccupied seats, never a scattered set. -/
theorem claim2_consecutive_run {n : Nat} {s : List Seat} (hwf : Wf s)
    (hex : ∃ c ∈ runs (free s), n ≤ c.length) :
    ∃ c ∈ runs (free s), n ≤ c.length ∧ selectSeats n s = some (c.take n) ∧
      (c.take n).length = n ∧
      (c.take n).Chain' (fun a b => a.row = b.row ∧ b.pos = a.pos + 1) ∧
      ∀ x ∈ c.take n, x ∈ free s := by
  obtain ⟨c0, hc0, hc0len⟩ := hex
  cases hf : (runs (free s)).filter (fun c => decide (n ≤ c.length)) with
  | nil =>
    exfalso
    have : c0 ∈ (runs (free s)).filter (fun c => decide (n ≤ c.length)) :=
      List.mem_filter.mpr ⟨hc0, by simpa using hc0len⟩
    rw [hf] at this
    simp at this
  | cons c cs =>
    obtain ⟨ht1, hcmem, hclen⟩ := tier1_of_filter_cons hf
    have hcsub : c.Sublist (free s) := sublist_of_mem_chunksBy hcmem
    refine ⟨c, hcmem, hclen, selectSeats_of_tier1 ht1,
      List.length_take_of_le hclen, ?_, ?_⟩
    · exact chain_take c ((chain_of_mem_chunksBy hcmem).imp
        (fun a b hab => adjB_iff.mp hab)) n
    · intro x hx
      exact hcsub.subset ((List.take_sublist n c).subset hx)

theorem claim2_witness :
    Wf demoLedger ∧
      (∃ c ∈ runs (free demoLedger), 2 ≤ c.length ∧
        selectSeats 2 demoLedger = some (c.take 2) ∧ (c.take 2).length = 2 ∧
        (c.take 2).Chain' (fun a b => a.row = b.row ∧ b.pos = a.pos + 1) ∧
        ∀ x ∈ c.take 2, x ∈ free demoLedger) :=
  ⟨by decide, claim2_consecutive_run (by decide) (by decide)⟩

/-- C3: from the fully free 2 rows × 3 seats layout, booking 3 seats
for requester 101 assigns exactly the whole of row 1, then booking 2
seats for requester 102 assigns exactly (2,1) and (2,2), and booking 2
seats for requester 103 fails with insufficient capacity leaving seat
(2,3) unoccupied. -/
theorem claim3_demo_scenario :
    demoBook1.1 = BookResult.booked [(1, 1, 1), (2, 1, 2), (3, 1, 3)] ∧
    demoBook2.1 = BookResult.booked [(4, 2, 1), (5, 2, 2)] ∧
    demoBook3.1 = BookResult.insufficientCapacity ∧
    ∃ x ∈ demoBook3.2, x.row = 2 ∧ x.pos = 3 ∧ x.booked = false := by
  refine ⟨by decide, by decide, by decide, by decide⟩

/-- C4: for `n` between 1 and 7, the selection policy fails — and the
booking route answers insufficient capacity — exactly when fewer than
`n` seats are unoccupied in the snapshot. -/
theorem claim4_insufficient_iff {n uid t : Nat} {s : List Seat} (hwf : Wf s)
    (h1 : 1 ≤ n) (h7 : n ≤ 7) :
    (selectSeats n s = none ↔ (free s).length < n) ∧
    ((bookSeats n uid t s).1 = BookResult.insufficientCapacity ↔
      (free s).length < n) := by
  refine ⟨select_none_iff hwf, ?_, ?_⟩
  · intro hins
    cases hselres : selectSeats n s with
    | none => exact (select_none_iff hwf).mp hselres
    | some sel =>
      rw [bookSeats_of_select_some hwf hselres] at hins
      simp at hins
  · intro hlen
    unfold bookSeats
    rw [bookSeatsCore_of_select_none ((select_none_iff hwf).mpr hlen)]

theorem claim4_witness :
    Wf demoLedger ∧ 1 ≤ 7 ∧ (7 : Nat) ≤ 7 ∧
      ((selectSeats 7 demoLedger = none ↔ (free demoLedger).length < 7) ∧
        ((bookSeats 7 101 11 demoLedger).1 = BookResult.insufficientCapacity ↔
          (free demoLedger).length < 7)) :=
  ⟨by decide, by decide, by decide,
    claim4_insufficient_iff (by decide) (by decide) (by decide)⟩

/-- C5: if two distinct rows both hold maximal runs of at least `n`
consecutive unoccupied seats, and the first of them is the lowest row
holding such a run, the policy deterministically serves the run of the
lower-numbered of the two rows. -/
theorem claim5_lowest_row {n : Nat} {s : List Seat} {c1 c2 : List Seat}
    (hwf : Wf s) (hc1 : c1 ∈ runs (free s)) (hl1 : n ≤ c1.length)
    (hc2 : c2 ∈ runs (free s)) (hl2 : n ≤ c2.length)
    (hrow : rowOf c1 < rowOf c2)
    (hlow : ∀ c ∈ runs (free s), n ≤ c.length → rowOf c1 ≤ rowOf c) :
    ∃ c ∈ runs (free s), n ≤ c.length ∧ rowOf c = rowOf c1 ∧
      selectSeats n s = some (c.take n) := by
  cases hf : (runs (free s)).filter (fun c => decide (n ≤ c.length)) with
  | nil =>
    exfalso
    have : c1 ∈ (runs (free s)).filter (fun c => decide (n ≤ c.length)) :=
      List.mem_filter.mpr ⟨hc1, by simpa using hl1⟩
    rw [hf] at this
    simp at this
  | cons c cs =>
    obtain ⟨ht1, hcmem, hclen⟩ := tier1_of_filter_cons hf
    refine ⟨c, hcmem, hclen, ?_, selectSeats_of_tier1 ht1⟩
    have h1 : rowOf c1 ≤ rowOf c := hlow c hcmem hclen
    have h2 : rowOf c ≤ rowOf c1 := by
      have hc1f : c1 ∈ (runs (free s)).filter (fun c => decide (n ≤ c.length)) :=
        List.mem_filter.mpr ⟨hc1, by simpa using hl1⟩
      rw [hf] at hc1f
      rcases List.mem_cons.mp hc1f with heq | hmem
      · exact le_of_eq (congrArg rowOf heq).symm
      · have hcross : (runs (free s)).Pairwise
            (fun a b => ∀ x ∈ a, ∀ y ∈ b, lexLT x y) :=
          chunksBy_pairwise_cross (free_pairwise hwf)
        have hcrossf := hcross.filter (fun c => decide (n ≤ c.length))
        rw [hf, List.pairwise_cons] at hcrossf
        exact cross_lex_rowOf_le (mem_chunksBy_ne_nil hcmem)
          (mem_chunksBy_ne_nil hc1) (hcrossf.1 c1 hmem)
    omega

theorem claim5_witness :
    Wf demoLedger ∧
      (∃ c ∈ runs (free demoLedger), 3 ≤ c.length ∧ rowOf c = 1 ∧
        selectSeats 3 demoLedger = some (c.take 3)) := by
  refine ⟨by decide, ?_⟩
  have h := @claim5_lowest_row 3 demoLedger
    [⟨1, 1, 1, false, none, none⟩, ⟨2, 1, 2, false, none, none⟩,
      ⟨3, 1, 3, false, none, none⟩]
    [⟨4, 2, 1, false, none, none⟩, ⟨5, 2, 2, false, none, none⟩,
      ⟨6, 2, 3, false, none, none⟩]
    (by decide) (by decide) (by decide) (by decide) (by decide) (by decide)
    (by decide)
  simpa using h

/-- C1: once the candidate set is selected, the transaction re-reads
the occupancy of exactly the candidate seats against the commit-time
ledger: if any candidate is occupied there, the call returns the
concurrency conflict and the ledger is returned unchanged; if all are
still free, exactly the candidate seats are marked occupied for the
requester and every other seat is untouched. -/
theorem claim1_commit_recheck {n uid t : Nat} {s1 s2 sel : List Seat}
    (hsel : selectSeats n s1 = some sel) :
    ((∃ x ∈ s2, x.id ∈ seatIds sel ∧ x.booked = true) →
      bookSeatsCore n uid t s1 s2 = (.concurrentConflict, s2)) ∧
    ((∀ x ∈ s2, x.id ∈ seatIds sel → x.booked = false) →
      (bookSeatsCore n uid t s1 s2).1 =
        .booked (sel.map (fun x => (x.id, x.row, x.pos))) ∧
      (bookSeatsCore n uid t s1 s2).2.length = s2.length ∧
      ∀ i (hi : i < s2.length) (hi2 : i < (bookSeatsCore n uid t s1 s2).2.length),
        (s2[i].id ∈ seatIds sel →
          (bookSeatsCore n uid t s1 s2).2[i] =
            { s2[i] with booked := true, bookedBy := some uid, bookedAt := some t }) ∧
        (s2[i].id ∉ seatIds sel → (bookSeatsCore n uid t s1 s2).2[i] = s2[i])) := by
  constructor
  · intro hconf
    rw [bookSeatsCore_of_select_some hsel, if_pos]
    rw [conflict_check_iff]
    obtain ⟨x, hx, hid, hbk⟩ := hconf
    exact ⟨x, hx, hbk, hid⟩
  · intro hfree
    have hno : s2.any (fun x => x.booked && decide (x.id ∈ seatIds sel)) = false := by
      by_contra hc
      rw [Bool.not_eq_false, conflict_check_iff] at hc
      obtain ⟨x, hx, hbk, hid⟩ := hc
      rw [hfree x hx hid] at hbk
      exact absurd hbk (by simp)
    rw [bookSeatsCore_of_select_some hsel, if_neg (by rw [hno]; simp)]
    refine ⟨rfl, by simp [mark], ?_⟩
    intro i hi hi2
    constructor
    · intro hmem
      simp only [mark, List.getElem_map]
      rw [if_pos hmem]
    · intro hmem
      simp only [mark, List.getElem_map]
      rw [if_neg hmem]

theorem claim1_witness :
    ((∃ x ∈ demoBook1.2, x.id ∈ seatIds [⟨1, 1, 1, false, none, none⟩] ∧
        x.booked = true) →
      bookSeatsCore 1 102 12 demoLedger demoBook1.2 =
        (.concurrentConflict, demoBook1.2)) ∧
    ((∀ x ∈ demoBook1.2, x.id ∈ seatIds [⟨1, 1, 1, false, none, none⟩] →
        x.booked = false) →
      (bookSeatsCore 1 102 12 demoLedger demoBook1.2).1 =
        .booked (([⟨1, 1, 1, false, none, none⟩] : List Seat).map
          (fun x => (x.id, x.row, x.pos))) ∧
      (bookSeatsCore 1 102 12 demoLedger demoBook1.2).2.length = demoBook1.2.length ∧
      ∀ i (hi : i < demoBook1.2.length)
        (hi2 : i < (bookSeatsCore 1 102 12 demoLedger demoBook1.2).2.length),
        (demoBook1.2[i].id ∈ seatIds [⟨1, 1, 1, false, none, none⟩] →
          (bookSeatsCore 1 102 12 demoLedger demoBook1.2).2[i] =
            { (demoBook1.2[i]) with
                booked := true, bookedBy := some 102, bookedAt := some 12 }) ∧
        (demoBook1.2[i].id ∉ seatIds [⟨1, 1, 1, false, none, none⟩] →
          (bookSeatsCore 1 102 12 demoLedger demoBook1.2).2[i] = demoBook1.2[i])) :=
  claim1_commit_recheck (by decide)

/-- C6: when no row has a long-enough run and the best row (the one
with the most unoccupied seats, lowest row number on ties) cannot cover
the request on its own, a successful selection is that whole row
followed by spillover seats drawn from other rows, forming a minimal
set under the ordering by absolute row distance from the chosen row,
then row number (so the lower-numbered of two equidistant rows is drawn
from first), then position. -/
theorem claim6_nearby_spillover {n : Nat} {s g out : List Seat}
    (hwf : Wf s)
    (ht : tier1 n (free s) = none)
    (hb : pickBest (rowGroups (free s)) = some g)
    (hshort : g.length < n)
    (hsel : selectSeats n s = some out) :
    (∀ g' ∈ rowGroups (free s), g'.length ≤ g.length) ∧
    (∀ g' ∈ rowGroups (free s), g'.length = g.length → rowOf g ≤ rowOf g') ∧
    ∃ extra,
      out = g ++ extra ∧
      extra.length = n - g.length ∧
      (∀ x ∈ extra, x ∈ free s ∧ x.row ≠ rowOf g) ∧
      extra.Pairwise (nearLE (rowOf g)) ∧
      (∀ x ∈ extra, ∀ y ∈ free s, y ∉ g → y ∉ extra → nearLE (rowOf g) x y) := by
  have hgmem := pickBest_mem hb
  have hgpos : 0 < g.length := List.length_pos.mpr (rowGroups_ne_nil hgmem)
  have hgsub : g.Sublist (free s) := sublist_of_mem_rowGroups hgmem
  have hgsubset : ∀ y ∈ g, y ∈ free s := fun y hy => hgsub.subset hy
  have hnodup := free_ids_nodup hwf
  refine ⟨pickBest_max hb, pickBest_lowest_row (rowGroups_rows_lt (free_pairwise hwf)) hb, ?_⟩
  rw [selectSeats_of_no_tier1 ht, tier23_of_pickBest_some hb, if_pos hgpos] at hsel
  simp only [tier2] at hsel
  have hk : min g.length n < n := by omega
  rw [if_pos hk] at hsel
  have hkg : min g.length n = g.length := by omega
  rw [hkg, List.take_length] at hsel
  split at hsel
  · rename_i hlen
    simp only [Option.some.injEq] at hsel
    refine ⟨(nearSort (rowOf g) (spillPool (free s) g)).take (n - g.length),
      hsel.symm, hlen, ?_, ?_, ?_⟩
    · intro x hx
      have hxsort : x ∈ nearSort (rowOf g) (spillPool (free s) g) :=
        (List.take_sublist _ _).subset hx
      have hxpool : x ∈ spillPool (free s) g :=
        (List.perm_insertionSort (nearLE (rowOf g)) _).mem_iff.mp hxsort
      obtain ⟨hxfree, hxg⟩ := (mem_spillPool hgsubset hnodup).mp hxpool
      refine ⟨hxfree, fun hxrow => hxg ?_⟩
      exact mem_rowGroups_complete hgmem x hxfree hxrow
    · have hsorted : (nearSort (rowOf g) (spillPool (free s) g)).Pairwise
          (nearLE (rowOf g)) :=
        List.sorted_insertionSort (nearLE (rowOf g)) _
      exact hsorted.sublist (List.take_sublist _ _)
    · intro x hx y hyfree hyg hyextra
      have hypool : y ∈ spillPool (free s) g :=
        (mem_spillPool hgsubset hnodup).mpr ⟨hyfree, hyg⟩
      have hysort : y ∈ nearSort (rowOf g) (spillPool (free s) g) :=
        (List.perm_insertionSort (nearLE (rowOf g)) _).mem_iff.mpr hypool
      have hsorted : (nearSort (rowOf g) (spillPool (free s) g)).Pairwise
          (nearLE (rowOf g)) :=
        List.sorted_insertionSort (nearLE (rowOf g)) _
      rw [← List.take_append_drop (n - g.length)
        (nearSort (rowOf g) (spillPool (free s) g))] at hsorted hysort
      rcases List.mem_append.mp hysort with hy | hy
      · exact absurd hy hyextra
      · exact (List.pairwise_append.mp hsorted).2.2 x hx y hy
  · simp at hsel

theorem claim6_witness :
    (∀ g' ∈ rowGroups (free spillLedger),
      g'.length ≤ ([⟨3, 2, 1, false, none, none⟩, ⟨4, 2, 2, false, none, none⟩] :
        List Seat).length) ∧
    (∀ g' ∈ rowGroups (free spillLedger),
      g'.length = ([⟨3, 2, 1, false, none, none⟩, ⟨4, 2, 2, false, none, none⟩] :
        List Seat).length →
      rowOf [⟨3, 2, 1, false, none, none⟩, ⟨4, 2, 2, false, none, none⟩] ≤ rowOf g') ∧
    ∃ extra,
      ([⟨3, 2, 1, false, none, none⟩, ⟨4, 2, 2, false, none, none⟩,
        ⟨1, 1, 1, false, none, none⟩] : List Seat) =
        [⟨3, 2, 1, false, none, none⟩, ⟨4, 2, 2, false, none, none⟩] ++ extra ∧
      extra.length = 3 - ([⟨3, 2, 1, false, none, none⟩,
        ⟨4, 2, 2, false, none, none⟩] : List Seat).length ∧
      (∀ x ∈ extra, x ∈ free spillLedger ∧
        x.row ≠ rowOf [⟨3, 2, 1, false, none, none⟩, ⟨4, 2, 2, false, none, none⟩]) ∧
      extra.Pairwise (nearLE (rowOf [⟨3, 2, 1, false, none, none⟩,
        ⟨4, 2, 2, false, none, none⟩])) ∧
      (∀ x ∈ extra, ∀ y ∈ free spillLedger,
        y ∉ ([⟨3, 2, 1, false, none, none⟩, ⟨4, 2, 2, false, none, none⟩] : List Seat) →
        y ∉ extra →
        nearLE (rowOf [⟨3, 2, 1, false, none, none⟩, ⟨4, 2, 2, false, none, none⟩]) x y) :=
  claim6_nearby_spillover (by decide) (by decide) (by decide) (by decide) (by decide)

/-- C7: when the first tier finds no qualifying run and the best-row
query yields no row holding an unoccupied seat, the selection falls
back to the system-wide query: it returns the first `n` unoccupied
seats in `(row, position)` order whenever at least `n` seats are
unoccupied, and fails with insufficient capacity otherwise. -/
theorem claim7_scattered_fallback {n : Nat} {s : List Seat} (hwf : Wf s)
    (ht : tier1 n (free s) = none)
    (hb : pickBest (rowGroups (free s)) = none ∨
      ∃ g, pickBest (rowGroups (free s)) = some g ∧ g.length = 0) :
    selectSeats n s = anyAvail n (free s) ∧
    (n ≤ (free s).length →
      selectSeats n s = some ((free s).take n) ∧
      ((free s).take n).length = n ∧
      ((free s).take n).Pairwise lexLT ∧
      ∀ x ∈ (free s).take n, x.booked = false) ∧
    ((free s).length < n → selectSeats n s = none) := by
  have hfall : selectSeats n s = anyAvail n (free s) := by
    rw [selectSeats_of_no_tier1 ht]
    rcases hb with hb | ⟨g, hb, hg0⟩
    · exact tier23_of_pickBest_none hb
    · rw [tier23_of_pickBest_some hb, if_neg (by omega)]
  refine ⟨hfall, ?_, ?_⟩
  · intro hle
    refine ⟨by rw [hfall]; exact anyAvail_of_le hle, List.length_take_of_le hle, ?_, ?_⟩
    · exact (free_pairwise hwf).sublist (List.take_sublist _ _)
    · intro x hx
      exact (mem_free.mp ((List.take_sublist _ _).subset hx)).2
  · intro hlt
    rw [hfall]
    exact anyAvail_eq_none_iff.mpr hlt

theorem claim7_witness :
    selectSeats 1 fullLedger = anyAvail 1 (free fullLedger) ∧
    (1 ≤ (free fullLedger).length →
      selectSeats 1 fullLedger = some ((free fullLedger).take 1) ∧
      ((free fullLedger).take 1).length = 1 ∧
      ((free fullLedger).take 1).Pairwise lexLT ∧
      ∀ x ∈ (free fullLedger).take 1, x.booked = false) ∧
    ((free fullLedger).length < 1 → selectSeats 1 fullLedger = none) :=
  claim7_scattered_fallback (by decide) (by decide) (Or.inl (by decide))

/-- C8: cancelling a seat occupied by requester A on behalf of a
different requester B answers Forbidden and leaves the ledger
untouched; cancelling a seat that does not exist or is unoccupied
answers NotFound; and when the caller is the occupant, the call
succeeds and clears the three occupancy fields of exactly that seat,
leaving every other seat unchanged. -/
theorem claim8_cancel {sid uidA uidB : Nat} {s : List Seat} (hwf : Wf s) :
    (∀ x ∈ s, x.id = sid → x.booked = true → x.bookedBy = some uidA →
      uidB ≠ uidA → cancelSeat sid uidB s = (.forbidden, s)) ∧
    ((∀ x ∈ s, x.id = sid → x.booked = false) →
      cancelSeat sid uidB s = (.notFound, s)) ∧
    (∀ x ∈ s, x.id = sid → x.booked = true → x.bookedBy = some uidB →
      (cancelSeat sid uidB s).1 = .released ∧
      (cancelSeat sid uidB s).2.length = s.length ∧
      ∀ i (hi : i < s.length) (hi2 : i < (cancelSeat sid uidB s).2.length),
        (s[i].id = sid →
          (cancelSeat sid uidB s).2[i] =
            { (s[i]) with booked := false, bookedBy := none, bookedAt := none }) ∧
        (s[i].id ≠ sid → (cancelSeat sid uidB s).2[i] = s[i])) := by
  refine ⟨?_, ?_, ?_⟩
  · intro x hx hid hbk hby hne
    rw [cancel_of_find_some (find_booked_eq hwf hx hid hbk), hby,
      if_neg (by simp [hne.symm])]
  · intro hall
    apply cancel_of_find_none
    rw [List.find?_eq_none]
    intro y hy
    by_cases hid : y.id = sid
    · simp [hid, hall y hy hid]
    · simp [hid]
  · intro x hx hid hbk hby
    rw [cancel_of_find_some (find_booked_eq hwf hx hid hbk), hby, if_pos rfl]
    refine ⟨rfl, by simp, ?_⟩
    intro i hi hi2
    constructor
    · intro hmem
      simp only [List.getElem_map]
      rw [if_pos hmem]
      rfl
    · intro hmem
      simp only [List.getElem_map]
      rw [if_neg hmem]

theorem claim8_witness :
    Wf demoBook1.2 ∧
    ((∀ x ∈ demoBook1.2, x.id = 1 → x.booked = true → x.bookedBy = some 101 →
      999 ≠ 101 → cancelSeat 1 999 demoBook1.2 = (.forbidden, demoBook1.2)) ∧
    ((∀ x ∈ demoBook1.2, x.id = 1 → x.booked = false) →
      cancelSeat 1 999 demoBook1.2 = (.notFound, demoBook1.2)) ∧
    (∀ x ∈ demoBook1.2, x.id = 1 → x.booked = true → x.bookedBy = some 999 →
      (cancelSeat 1 999 demoBook1.2).1 = .released ∧
      (cancelSeat 1 999 demoBook1.2).2.length = demoBook1.2.length ∧
      ∀ i (hi : i < demoBook1.2.length)
        (hi2 : i < (cancelSeat 1 999 demoBook1.2).2.length),
        ((demoBook1.2[i]).id = 1 →
          (cancelSeat 1 999 demoBook1.2).2[i] =
            { (demoBook1.2[i]) with
                booked := false, bookedBy := none, bookedAt := none }) ∧
        ((demoBook1.2[i]).id ≠ 1 →
          (cancelSeat 1 999 demoBook1.2).2[i] = demoBook1.2[i]))) :=
  ⟨by decide, claim8_cancel (by decide)⟩

/-- C9: every ledger mutation of the engine — a booking transaction
(successful or failed, with any selection snapshot), a cancellation
(successful or failed) and the bulk reset — preserves the per-seat
invariant that `bookedBy` and `bookedAt` are both set when `booked` and
both null when not. -/
theorem claim9_invariant {n uid t sid cuid : Nat} {s1 s2 : List Seat}
    (hinv : LedgerInv s2) :
    LedgerInv (bookSeatsCore n uid t s1 s2).2 ∧
    LedgerInv (cancelSeat sid cuid s2).2 ∧
    LedgerInv (resetAll s2) := by
  refine ⟨?_, ?_, ?_⟩
  · cases hsel : selectSeats n s1 with
    | none => rw [bookSeatsCore_of_select_none hsel]; exact hinv
    | some sel =>
      rw [bookSeatsCore_of_select_some hsel]
      split
      · exact hinv
      · exact ledgerInv_mark hinv
  · cases hf : s2.find? (fun x => x.id == sid && x.booked) with
    | none => rw [cancel_of_find_none hf]; exact hinv
    | some x =>
      rw [cancel_of_find_some hf]
      split
      · intro y hy
        rcases List.mem_map.mp hy with ⟨z, hz, rfl⟩
        by_cases hzid : z.id = sid
        · rw [if_pos hzid]; exact seatInv_clear z
        · rw [if_neg hzid]; exact hinv z hz
      · exact hinv
  · intro y hy
    rcases List.mem_map.mp hy with ⟨z, _, rfl⟩
    exact seatInv_clear z

theorem claim9_witness :
    LedgerInv demoBook1.2 ∧
      (LedgerInv (bookSeatsCore 2 102 12 demoBook1.2 demoBook1.2).2 ∧
        LedgerInv (cancelSeat 1 101 demoBook1.2).2 ∧
        LedgerInv (resetAll demoBook1.2)) :=
  ⟨by decide, claim9_invariant (by decide)⟩

/-- C10: a successful booking assigns exactly the requested number of
seats, with pairwise distinct seat identifiers, each of which was
unoccupied in the snapshot the selection ran against. -/
theorem claim10_booking_shape {n uid t : Nat} {s s2 : List Seat}
    {out : List (Nat × Nat × Nat)}
    (hwf : Wf s) (h : bookSeats n uid t s = (.booked out, s2)) :
    out.length = n ∧ (out.map (fun e => e.1)).Nodup ∧
      ∀ e ∈ out, ∃ x ∈ s, x.booked = false ∧ x.id = e.1 ∧
        x.row = e.2.1 ∧ x.pos = e.2.2 := by
  unfold bookSeats at h
  cases hsel : selectSeats n s with
  | none =>
    rw [bookSeatsCore_of_select_none hsel] at h
    simp at h
  | some sel =>
    rw [bookSeatsCore_of_select_some hsel] at h
    obtain ⟨hlen, hnodup, hmem⟩ := selectSeats_some_spec hwf hsel
    split at h
    · simp at h
    · have hout : out = sel.map (fun x => (x.id, x.row, x.pos)) := by
        have := congrArg Prod.fst h
        simp at this
        exact this.symm
      subst hout
      refine ⟨by rw [List.length_map, hlen], ?_, ?_⟩
      · rw [List.map_map]
        exact hnodup
      · intro e he
        rcases List.mem_map.mp he with ⟨x, hxsel, rfl⟩
        obtain ⟨hxs, hxbk⟩ := mem_free.mp (hmem x hxsel)
        exact ⟨x, hxs, hxbk, rfl, rfl, rfl⟩

theorem claim10_witness :
    Wf demoLedger ∧
      (([(1, 1, 1), (2, 1, 2), (3, 1, 3)] : List (Nat × Nat × Nat)).length = 3 ∧
        (([(1, 1, 1), (2, 1, 2), (3, 1, 3)] : List (Nat × Nat × Nat)).map
          (fun e => e.1)).Nodup ∧
        ∀ e ∈ ([(1, 1, 1), (2, 1, 2), (3, 1, 3)] : List (Nat × Nat × Nat)),
          ∃ x ∈ demoLedger, x.booked = false ∧ x.id = e.1 ∧
            x.row = e.2.1 ∧ x.pos = e.2.2) :=
  ⟨by decide, @claim10_booking_shape 3 101 11 demoLedger demoBook1.2
    [(1, 1, 1), (2, 1, 2), (3, 1, 3)] (by decide) (by decide)⟩

end SeatBooking
